import Mathlib

/-!
AdjFrame and camParams of `autoware_tensorrt_bevdet`.

A shallow embedding of `class AdjFrame` (`bevdet.hpp`), the temporal BEV feature ring buffer,
and of the YAML constructor of `struct camParams` with its helpers `fromYamlTrans`,
`fromYamlQuater` and `fromYamlMatrix3f` (`data.cpp`), and theorems about them.

Modelling conventions.

* C++ `int` values (`n_`, `last_`, `buffer_num_`, the `idx` arguments) are `Int`.  The C++
  remainder `a % b` truncates towards zero, which is `Int.tmod`.  On the states considered
  every intermediate value lies in `[0, 2 * n_]`, so for capacities up to `2 ^ 30` nothing
  leaves the 32-bit `int` range (signed overflow is undefined in C++ and is not modelled).
* A `std::vector` is a `List`; an access `v[i]` with an `int` index is `vecGet`/`vecSet`, which
  give `none` / leave the vector untouched where the C++ index is outside the vector (undefined
  behaviour in C++).
* The device allocation `adj_buffer` of `n * buf_size` bytes is viewed as its `n` consecutive
  blocks of `buf_size_` bytes; a block is a value of an arbitrary type `F`.  The
  `cudaMemcpy` of `buf_size_` bytes to byte offset `last_ * buf_size_` overwrites block `last_`,
  and the pointer `adj_buffer + idx * buf_size_` designates block `idx`.
* `float` values are only copied by the code, never computed with; they are values of an
  arbitrary type `R`.
* A C++ exception, or a read outside a vector, ends a function of `data.cpp` without a value:
  these functions return an `Option`.  The message that the constructor logs is kept next to
  its result, in a `Construction`.
-/

namespace Eigen

/-- The coefficients of an `Eigen::Quaternion<float>`, in constructor order `(w, x, y, z)`. -/
structure Quaternion (R : Type) where
  w : R
  x : R
  y : R
  z : R
deriving DecidableEq, Repr

/-- The coefficients of an `Eigen::Translation3f`. -/
structure Translation3f (R : Type) where
  x : R
  y : R
  z : R
deriving DecidableEq, Repr

end Eigen

/-- Read `v[i]` for an `int` index: `none` where the index is outside the vector. -/
def vecGet {α : Type} (v : List α) (i : Int) : Option α :=
  if 0 ≤ i then v[i.toNat]? else none

/-- Write `v[i] = a` for an `int` index; the vector is left as it is where the index is
outside of it. -/
def vecSet {α : Type} (v : List α) (i : Int) (a : α) : List α :=
  if 0 ≤ i then v.set i.toNat a else v

/-- The data members of `class AdjFrame`. -/
@[ext]
structure AdjFrame (F R : Type) where
  n_ : Int
  buf_size_ : Nat
  last_ : Int
  buffer_num_ : Int
  init_ : Bool
  scenes_token_ : List String
  ego2global_rot_ : List (Eigen.Quaternion R)
  ego2global_trans_ : List (Eigen.Translation3f R)
  adj_buffer : List F
deriving DecidableEq, Repr

/-- The arguments of one `saveFrameBuffer` call. -/
structure FrameArgs (F R : Type) where
  curr_buffer : F
  curr_token : String
  ego2global_rot : Eigen.Quaternion R
  ego2global_trans : Eigen.Translation3f R
deriving DecidableEq, Repr

/-- A call of one of the two mutating member functions. -/
inductive Call (F R : Type) where
  | save (a : FrameArgs F R)
  | reset
deriving DecidableEq, Repr

namespace AdjFrame

variable {F R : Type}

/-- The constructor `AdjFrame(int n, size_t buf_size)`: `n` zero-filled blocks, `n` empty scene
tokens, `n` zero quaternions and `n` zero translations.  (For `n < 0` the C++ vector
constructors throw; the lists are then empty here.) -/
def create [Zero F] [Zero R] (n : Int) (buf_size : Nat) : AdjFrame F R where
  n_ := n
  buf_size_ := buf_size
  last_ := 0
  buffer_num_ := 0
  init_ := false
  scenes_token_ := List.replicate n.toNat ""
  ego2global_rot_ := List.replicate n.toNat ⟨0, 0, 0, 0⟩
  ego2global_trans_ := List.replicate n.toNat ⟨0, 0, 0⟩
  adj_buffer := List.replicate n.toNat 0

/-- The member function `lastScenesToken`: `scenes_token_[last_]`. -/
def lastScenesToken (s : AdjFrame F R) : Option String :=
  vecGet s.scenes_token_ s.last_

/-- The member function `reset`. -/
def reset (s : AdjFrame F R) : AdjFrame F R :=
  { s with last_ := 0, buffer_num_ := 0, init_ := false }

/-- One pass through the body of the `while` loop of `saveFrameBuffer`. -/
def saveStep (s : AdjFrame F R) (curr_buffer : F) (curr_token : String)
    (ego2global_rot : Eigen.Quaternion R) (ego2global_trans : Eigen.Translation3f R) :
    AdjFrame F R :=
  let last := Int.tmod (s.last_ + 1) s.n_
  { s with
    last_ := last
    adj_buffer := vecSet s.adj_buffer last curr_buffer
    scenes_token_ := vecSet s.scenes_token_ last curr_token
    ego2global_rot_ := vecSet s.ego2global_rot_ last ego2global_rot
    ego2global_trans_ := vecSet s.ego2global_trans_ last ego2global_trans
    buffer_num_ := min (s.buffer_num_ + 1) s.n_ }

/-- The loop `while (iters--) { ... }` of `saveFrameBuffer`, for a non-negative `iters`. -/
def saveLoop (curr_buffer : F) (curr_token : String)
    (ego2global_rot : Eigen.Quaternion R) (ego2global_trans : Eigen.Translation3f R) :
    Nat → AdjFrame F R → AdjFrame F R
  | 0, s => s
  | iters + 1, s =>
    saveLoop curr_buffer curr_token ego2global_rot ego2global_trans iters
      (s.saveStep curr_buffer curr_token ego2global_rot ego2global_trans)

/-- The member function `saveFrameBuffer`. -/
def saveFrameBuffer (s : AdjFrame F R) (curr_buffer : F) (curr_token : String)
    (ego2global_rot : Eigen.Quaternion R) (ego2global_trans : Eigen.Translation3f R) :
    AdjFrame F R :=
  let iters : Int := if s.init_ then 1 else s.n_
  { saveLoop curr_buffer curr_token ego2global_rot ego2global_trans iters.toNat s with
    init_ := true }

/-- The member function `havingBuffer`: `static_cast<int>(idx < buffer_num_)`. -/
def havingBuffer (s : AdjFrame F R) (idx : Int) : Int :=
  if idx < s.buffer_num_ then 1 else 0

/-- The physical slot index `(-idx + last_ + n_) % n_` computed by `getFrameBuffer` and by
`getEgo2Global`. -/
def slotIndex (s : AdjFrame F R) (idx : Int) : Int :=
  Int.tmod (-idx + s.last_ + s.n_) s.n_

/-- The member function `getFrameBuffer`: the block that the returned pointer
`adj_buffer + idx * buf_size_` designates. -/
def getFrameBuffer (s : AdjFrame F R) (idx : Int) : Option F :=
  let idx := Int.tmod (-idx + s.last_ + s.n_) s.n_
  vecGet s.adj_buffer idx

/-- The member function `getEgo2Global`: the values assigned to the two output parameters. -/
def getEgo2Global (s : AdjFrame F R) (idx : Int) :
    Option (Eigen.Quaternion R × Eigen.Translation3f R) :=
  let idx := Int.tmod (-idx + s.last_ + s.n_) s.n_
  match vecGet s.ego2global_rot_ idx, vecGet s.ego2global_trans_ idx with
  | some adj_ego2global_rot, some adj_ego2global_trans =>
    some (adj_ego2global_rot, adj_ego2global_trans)
  | _, _ => none

/-- `saveFrameBuffer` applied to the bundled arguments of a call. -/
def save (s : AdjFrame F R) (a : FrameArgs F R) : AdjFrame F R :=
  s.saveFrameBuffer a.curr_buffer a.curr_token a.ego2global_rot a.ego2global_trans

/-- A sequence of `saveFrameBuffer` calls, first call first. -/
def saves (s : AdjFrame F R) (fs : List (FrameArgs F R)) : AdjFrame F R :=
  fs.foldl save s

/-- One call of `saveFrameBuffer` or `reset`. -/
def call (s : AdjFrame F R) : Call F R → AdjFrame F R
  | .save a => s.save a
  | .reset => s.reset

/-- A sequence of `saveFrameBuffer` and `reset` calls, first call first. -/
def run (s : AdjFrame F R) (cs : List (Call F R)) : AdjFrame F R :=
  cs.foldl call s

/-- The class invariant on the storage: the object has `n_` slots, i.e. the three vectors
(sized `n` by the constructor and never resized) and the block array have `n_` entries. -/
def Sized (s : AdjFrame F R) : Prop :=
  s.scenes_token_.length = s.n_.toNat ∧ s.ego2global_rot_.length = s.n_.toNat ∧
  s.ego2global_trans_.length = s.n_.toNat ∧ s.adj_buffer.length = s.n_.toNat

/-- The frame held by physical slot `i`: its block, scene token, rotation and translation. -/
def slotAt (s : AdjFrame F R) (i : Int) : Option (FrameArgs F R) :=
  match vecGet s.adj_buffer i, vecGet s.scenes_token_ i, vecGet s.ego2global_rot_ i,
    vecGet s.ego2global_trans_ i with
  | some b, some t, some r, some v => some ⟨b, t, r, v⟩
  | _, _, _, _ => none

/-- A consistent state of a buffer of capacity `N`: `N` slots, `last_` one of them,
`buffer_num_` between `0` and `N`. -/
def Ring (N : Int) (s : AdjFrame F R) : Prop :=
  1 ≤ N ∧ s.n_ = N ∧ s.Sized ∧ 0 ≤ s.last_ ∧ s.last_ < N ∧ 0 ≤ s.buffer_num_ ∧
  s.buffer_num_ ≤ N

/-- The slots at the logical offsets `0, 1, ...` hold the frames of `h`, in this order, as far
as `h` and the capacity reach. -/
def Hist (s : AdjFrame F R) (h : List (FrameArgs F R)) : Prop :=
  ∀ k : Nat, k < h.length → (k : Int) < s.n_ → s.slotAt (s.slotIndex k) = h[k]?

/-- The state of a buffer of capacity `N` after at least one `saveFrameBuffer` call since
construction or `reset`, with `h` the frames at the logical offsets `0, 1, ...`. -/
def Inv (N : Int) (s : AdjFrame F R) (h : List (FrameArgs F R)) : Prop :=
  s.Ring N ∧ s.init_ = true ∧ s.buffer_num_ = N ∧ s.Hist h

end AdjFrame

/-- A frame for examples: feature block `i`, token `t`, pose built from `i`. -/
def exampleFrame (i : Nat) (t : String) : FrameArgs Nat Int :=
  ⟨i, t, ⟨1, 0, 0, i⟩, ⟨i, 2 * i, 0⟩⟩

/-- Five distinct frames, numbered 1 to 5 in the order they are saved. -/
def fiveFrames : List (FrameArgs Nat Int) :=
  [exampleFrame 1 "a", exampleFrame 2 "b", exampleFrame 3 "c", exampleFrame 4 "d",
    exampleFrame 5 "e"]

/-- A buffer of capacity 3 after the saves of the frames 1 and 2: `last_ = 1`, slots
`[1, 2, 1]`. -/
def warmState : AdjFrame Nat Int :=
  (AdjFrame.create 3 16).saves (fiveFrames.take 2)

namespace Eigen

/-- An `Eigen::Matrix3f`: its nine coefficients row by row, coefficient `(i, j)` at position
`3 * i + j`; `none` stands for a coefficient that has not been assigned since the default
construction (its value is indeterminate). -/
structure Matrix3f (R : Type) where
  coeffs : List (Option R)
deriving DecidableEq, Repr

/-- The default-constructed `Eigen::Matrix3f mat;`: no coefficient assigned. -/
def Matrix3f.uninit {R : Type} : Matrix3f R :=
  ⟨List.replicate 9 none⟩

/-- The assignment `mat(i, j) = v`; `none` where `(i, j)` is outside the 3 x 3 matrix. -/
def Matrix3f.assign {R : Type} (mat : Matrix3f R) (i j : Nat) (v : R) : Option (Matrix3f R) :=
  if i < 3 ∧ j < 3 then some ⟨mat.coeffs.set (3 * i + j) (some v)⟩ else none

/-- Modelled from the spec: the rotation magnitude of a pose, squared:
`w² + x² + y² + z²` (Eigen's `squaredNorm`, which is not part of the sources). -/
def Quaternion.squaredNorm {R : Type} [Add R] [Mul R] (q : Quaternion R) : R :=
  q.w * q.w + q.x * q.x + q.y * q.y + q.z * q.z

end Eigen

namespace YAML

/-- Modelled from the spec: `YAML::Node` of yaml-cpp, which is not part of the sources, as the
already-parsed configuration tree.  Scalars are held converted: a `str` is a scalar read with
`as<std::string>()`, an `int` one read with `as<std::int64_t>()`, a `real` one read with
`as<float>()`.  `zombie` is the node that indexing a missing key yields. -/
inductive Node (R : Type) where
  | zombie : Node R
  | str : String → Node R
  | int : Int → Node R
  | real : R → Node R
  | seq : List (Node R) → Node R
  | map : List (String × Node R) → Node R

variable {R : Type}

/-- Modelled from the spec: `node[key]` on a `const YAML::Node`: the value of `key` in a map,
the zombie node otherwise (where yaml-cpp throws at once instead, the conversion that the
sources always apply next fails here, so the construction fails either way). -/
def Node.get (node : Node R) (key : String) : Node R :=
  match node with
  | .map kvs => (kvs.lookup key).getD .zombie
  | _ => .zombie

/-- Modelled from the spec: `node.as<std::string>()`; `none` where yaml-cpp throws. -/
def Node.asString : Node R → Option String
  | .str s => some s
  | _ => none

/-- Modelled from the spec: `node.as<std::int64_t>()`; `none` where yaml-cpp throws, which
includes a value outside the 64-bit range. -/
def Node.asInt64 : Node R → Option Int
  | .int i => if -(2 ^ 63) ≤ i ∧ i < 2 ^ 63 then some i else none
  | _ => none

/-- Modelled from the spec: `node.as<float>()`; `none` where yaml-cpp throws. -/
def Node.asFloat : Node R → Option R
  | .real x => some x
  | _ => none

/-- Modelled from the spec: `node.as<std::vector<float>>()`: a sequence all of whose entries
convert; `none` where yaml-cpp throws. -/
def Node.asFloatVec : Node R → Option (List R)
  | .seq xs => xs.mapM Node.asFloat
  | _ => none

/-- Modelled from the spec: `node.as<std::vector<std::vector<float>>>()`; `none` where yaml-cpp
throws. -/
def Node.asFloatMat : Node R → Option (List (List R))
  | .seq xs => xs.mapM Node.asFloatVec
  | _ => none

end YAML

/-- The function `fromYamlTrans`; `none` where the conversion throws or `trans[0]`, `trans[1]`, `trans[2]` read
outside the vector. -/
def fromYamlTrans {R : Type} (x : YAML.Node R) : Option (Eigen.Translation3f R) :=
  match x.asFloatVec with
  | none => none
  | some transVec =>
    match transVec[0]?, transVec[1]?, transVec[2]? with
    | some t0, some t1, some t2 => some ⟨t0, t1, t2⟩
    | _, _, _ => none

/-- The function `fromYamlQuater`; `none` where the conversion throws or `quater[0..3]` reads
outside the vector. -/
def fromYamlQuater {R : Type} (x : YAML.Node R) : Option (Eigen.Quaternion R) :=
  match x.asFloatVec with
  | none => none
  | some quater =>
    match quater[0]?, quater[1]?, quater[2]?, quater[3]? with
    | some q0, some q1, some q2, some q3 => some ⟨q0, q1, q2, q3⟩
    | _, _, _, _ => none

/-- The two nested loops of `fromYamlMatrix3f`: `mat(i, j) = m[i][j]` for `i < m.size()` and
`j < m[0].size()`; `none` where an access is outside `m` or outside the matrix. -/
def fromYamlMatrix3fLoop {R : Type} (m : List (List R)) : Option (Eigen.Matrix3f R) :=
  (List.range m.length).foldlM
    (fun mat i =>
      (List.range (m.head?.getD []).length).foldlM
        (fun mat j =>
          match (m[i]?).bind (fun row => row[j]?) with
          | some v => mat.assign i j v
          | none => none)
        mat)
    Eigen.Matrix3f.uninit

/-- The function `fromYamlMatrix3f`. -/
def fromYamlMatrix3f {R : Type} (x : YAML.Node R) : Option (Eigen.Matrix3f R) :=
  match x.asFloatMat with
  | none => none
  | some m => fromYamlMatrix3fLoop m

/-- The data members of `struct camParams`. -/
structure camParams (R : Type) where
  N_img : Int
  ego2global_rot : Eigen.Quaternion R
  ego2global_trans : Eigen.Translation3f R
  lidar2ego_rot : Eigen.Quaternion R
  lidar2ego_trans : Eigen.Translation3f R
  cams_intrin : List (Eigen.Matrix3f R)
  cams2ego_rot : List (Eigen.Quaternion R)
  cams2ego_trans : List (Eigen.Translation3f R)
  imgs_file : List String
  timestamp : Int
  scene_token : String
deriving DecidableEq, Repr

/-- One `RCLCPP_ERROR` call: the logger name, the format string and its two arguments. -/
structure ErrorLog where
  logger : String
  format : String
  need : Int
  given : Nat
deriving DecidableEq, Repr

/-- The outcome of running a constructor: the errors it logged, and the constructed object,
`none` where an exception left the constructor. -/
structure Construction (α : Type) where
  errors : List ErrorLog
  value : Option α
deriving DecidableEq, Repr

namespace camParams

variable {R : Type}

/-- The config entry `config["cams"][name][field]`. -/
def camField (config : YAML.Node R) (name field : String) : YAML.Node R :=
  ((config.get "cams").get name).get field

/-- One pass through the body of the loop `for (const std::string & name : cams_name)` of the
YAML constructor: four `push_back` calls. -/
def pushCamera (config : YAML.Node R) (p : camParams R) (name : String) :
    Option (camParams R) :=
  match (camField config name "data_path").asString,
    fromYamlMatrix3f (camField config name "cam_intrinsic"),
    fromYamlQuater (camField config name "sensor2ego_rotation"),
    fromYamlTrans (camField config name "sensor2ego_translation") with
  | some data_path, some cam_intrinsic, some sensor2ego_rot, some sensor2ego_trans =>
    some { p with
      imgs_file := p.imgs_file ++ ["." ++ data_path]
      cams_intrin := p.cams_intrin ++ [cam_intrinsic]
      cams2ego_rot := p.cams2ego_rot ++ [sensor2ego_rot]
      cams2ego_trans := p.cams2ego_trans ++ [sensor2ego_trans] }
  | _, _, _, _ => none

/-- The loop `for (const std::string & name : cams_name)` of the YAML constructor. -/
def pushCameras (config : YAML.Node R) : List String → camParams R → Option (camParams R)
  | [], p => some p
  | name :: rest, p =>
    match pushCamera config p name with
    | some p1 => pushCameras config rest p1
    | none => none

/-- The constructor `camParams(const YAML::Node & config, int n, std::vector<std::string> &
cams_name)`.  The comparison `static_cast<size_t>(n) != cams_name.size()` is on 64-bit
unsigned values. -/
def create (config : YAML.Node R) (n : Int) (cams_name : List String) :
    Construction (camParams R) where
  errors :=
    if (n % 2 ^ 64).toNat ≠ cams_name.length then
      [⟨"camParams", "Error! Need %d camera param, but given %zu camera names!", n,
        cams_name.length⟩]
    else []
  value :=
    match fromYamlQuater (config.get "ego2global_rotation"),
      fromYamlTrans (config.get "ego2global_translation"),
      fromYamlQuater (config.get "lidar2ego_rotation"),
      fromYamlTrans (config.get "lidar2ego_translation"),
      (config.get "timestamp").asInt64, (config.get "scene_token").asString with
    | some ego2global_rot, some ego2global_trans, some lidar2ego_rot, some lidar2ego_trans,
      some timestamp, some scene_token =>
      pushCameras config cams_name
        { N_img := n
          ego2global_rot := ego2global_rot
          ego2global_trans := ego2global_trans
          lidar2ego_rot := lidar2ego_rot
          lidar2ego_trans := lidar2ego_trans
          cams_intrin := []
          cams2ego_rot := []
          cams2ego_trans := []
          imgs_file := []
          timestamp := timestamp
          scene_token := scene_token }
    | _, _, _, _, _, _ => none

/-- The top-level entries that the YAML constructor reads all convert. -/
def TopLevelOk (config : YAML.Node R) : Prop :=
  (fromYamlQuater (config.get "ego2global_rotation")).isSome ∧
  (fromYamlTrans (config.get "ego2global_translation")).isSome ∧
  (fromYamlQuater (config.get "lidar2ego_rotation")).isSome ∧
  (fromYamlTrans (config.get "lidar2ego_translation")).isSome ∧
  ((config.get "timestamp").asInt64).isSome ∧ ((config.get "scene_token").asString).isSome

/-- The camera `name` has a well-formed entry in the config: its four fields all convert. -/
def EntryOk (config : YAML.Node R) (name : String) : Prop :=
  ((camField config name "data_path").asString).isSome ∧
  (fromYamlMatrix3f (camField config name "cam_intrinsic")).isSome ∧
  (fromYamlQuater (camField config name "sensor2ego_rotation")).isSome ∧
  (fromYamlTrans (camField config name "sensor2ego_translation")).isSome

end camParams

/-- A sequence node of float scalars. -/
def exampleVec (xs : List Int) : YAML.Node Int :=
  .seq (xs.map .real)

/-- The config entry of one camera for examples. -/
def exampleCamera (path : String) (f : Int) : YAML.Node Int :=
  .map [("data_path", .str path),
    ("cam_intrinsic", .seq [exampleVec [f, 0, 8], exampleVec [0, f, 4], exampleVec [0, 0, 1]]),
    ("sensor2ego_rotation", exampleVec [1, 0, 0, 0]),
    ("sensor2ego_translation", exampleVec [f, 2, 3])]

/-- A config with two cameras for examples. -/
def exampleConfig : YAML.Node Int :=
  .map [("ego2global_rotation", exampleVec [1, 0, 0, 0]),
    ("ego2global_translation", exampleVec [10, 20, 0]),
    ("lidar2ego_rotation", exampleVec [0, 1, 0, 0]),
    ("lidar2ego_translation", exampleVec [1, 0, 2]),
    ("timestamp", .int 1533151603512404),
    ("scene_token", .str "scene-0001"),
    ("cams", .map [("CAM_FRONT", exampleCamera "/samples/front.jpg" 5),
      ("CAM_BACK", exampleCamera "/samples/back.jpg" 7)])]

theorem tmod_succ (l N : Int) (h0 : 0 ≤ l) (h1 : l < N) :
    Int.tmod (l + 1) N = if l + 1 = N then 0 else l + 1 := by
  split
  · next h => rw [h]; exact Int.tmod_self
  · next h => exact Int.tmod_eq_of_lt (by omega) (by omega)

theorem tmod_slot (l k N : Int) (h0 : 0 ≤ l) (h1 : l < N) (k0 : 0 ≤ k) (k1 : k < N) :
    Int.tmod (-k + l + N) N = if k ≤ l then l - k else l - k + N := by
  rw [Int.tmod_eq_emod (by omega) (by omega)]
  split
  · next h =>
    have e : -k + l + N = (l - k) + 1 * N := by ring
    rw [e, Int.add_mul_emod_self]
    exact Int.emod_eq_of_lt (by omega) (by omega)
  · next h =>
    have e : -k + l + N = l - k + N := by ring
    rw [e]
    exact Int.emod_eq_of_lt (by omega) (by omega)

theorem length_vecSet {α : Type} (v : List α) (i : Int) (a : α) :
    (vecSet v i a).length = v.length := by
  unfold vecSet; split <;> simp

theorem vecGet_vecSet_self {α : Type} (v : List α) (i : Int) (a : α) (h0 : 0 ≤ i)
    (h1 : i.toNat < v.length) : vecGet (vecSet v i a) i = some a := by
  simp [vecGet, vecSet, h0, h1]

theorem vecGet_vecSet_ne {α : Type} (v : List α) (i j : Int) (a : α) (h : j ≠ i) :
    vecGet (vecSet v i a) j = vecGet v j := by
  unfold vecGet vecSet
  by_cases hj : 0 ≤ j
  · by_cases hi : 0 ≤ i
    · have : i.toNat ≠ j.toNat := by omega
      simp [hj, hi, this]
    · simp [hj, hi]
  · simp [hj]

namespace AdjFrame

variable {F R : Type}

theorem slotIndex_eq (N : Int) (s : AdjFrame F R) (hr : s.Ring N) (k : Int) (k0 : 0 ≤ k)
    (k1 : k < N) :
    s.slotIndex k = if k ≤ s.last_ then s.last_ - k else s.last_ - k + N := by
  obtain ⟨_, hn, _, h0, h1, _, _⟩ := hr
  unfold slotIndex
  rw [hn]
  exact tmod_slot s.last_ k N h0 h1 k0 k1

theorem slotIndex_bounds (N : Int) (s : AdjFrame F R) (hr : s.Ring N) (k : Int) (k0 : 0 ≤ k)
    (k1 : k < N) : 0 ≤ s.slotIndex k ∧ s.slotIndex k < N := by
  rw [slotIndex_eq N s hr k k0 k1]
  obtain ⟨_, _, _, h0, h1, _, _⟩ := hr
  split <;> omega

theorem last_saveStep (N : Int) (s : AdjFrame F R) (hr : s.Ring N) (b : F) (t : String)
    (r : Eigen.Quaternion R) (v : Eigen.Translation3f R) :
    (s.saveStep b t r v).last_ = if s.last_ + 1 = N then 0 else s.last_ + 1 := by
  obtain ⟨_, hn, _, h0, h1, _, _⟩ := hr
  show Int.tmod (s.last_ + 1) s.n_ = _
  rw [hn]
  exact tmod_succ s.last_ N h0 h1

theorem ring_saveStep (N : Int) (s : AdjFrame F R) (hr : s.Ring N) (b : F) (t : String)
    (r : Eigen.Quaternion R) (v : Eigen.Translation3f R) : (s.saveStep b t r v).Ring N := by
  have hl := last_saveStep N s hr b t r v
  obtain ⟨hN, hn, ⟨z1, z2, z3, z4⟩, h0, h1, b0, b1⟩ := hr
  refine ⟨hN, hn, ⟨?_, ?_, ?_, ?_⟩, ?_, ?_, ?_, ?_⟩
  · show (vecSet _ _ _).length = _
    rw [length_vecSet]; exact z1
  · show (vecSet _ _ _).length = _
    rw [length_vecSet]; exact z2
  · show (vecSet _ _ _).length = _
    rw [length_vecSet]; exact z3
  · show (vecSet _ _ _).length = _
    rw [length_vecSet]; exact z4
  · rw [hl]; split <;> omega
  · rw [hl]; split <;> omega
  · show 0 ≤ min (s.buffer_num_ + 1) s.n_
    omega
  · show min (s.buffer_num_ + 1) s.n_ ≤ N
    omega

theorem slotAt_saveStep_self (N : Int) (s : AdjFrame F R) (hr : s.Ring N) (b : F) (t : String)
    (r : Eigen.Quaternion R) (v : Eigen.Translation3f R) :
    (s.saveStep b t r v).slotAt (s.saveStep b t r v).last_ = some ⟨b, t, r, v⟩ := by
  have hr2 := ring_saveStep N s hr b t r v
  obtain ⟨hN, hn, ⟨z1, z2, z3, z4⟩, _, _, _, _⟩ := hr
  obtain ⟨_, _, _, h0, h1, _, _⟩ := hr2
  have e : (s.saveStep b t r v).last_ = Int.tmod (s.last_ + 1) s.n_ := rfl
  rw [e] at h0 h1 ⊢
  have hlt : (Int.tmod (s.last_ + 1) s.n_).toNat < s.n_.toNat := by omega
  show (match vecGet (vecSet s.adj_buffer _ b) _, vecGet (vecSet s.scenes_token_ _ t) _,
    vecGet (vecSet s.ego2global_rot_ _ r) _, vecGet (vecSet s.ego2global_trans_ _ v) _ with
    | some b, some t, some r, some v => some (FrameArgs.mk b t r v)
    | _, _, _, _ => none) = _
  rw [vecGet_vecSet_self _ _ _ h0 (by rw [z4]; exact hlt),
    vecGet_vecSet_self _ _ _ h0 (by rw [z1]; exact hlt),
    vecGet_vecSet_self _ _ _ h0 (by rw [z2]; exact hlt),
    vecGet_vecSet_self _ _ _ h0 (by rw [z3]; exact hlt)]

theorem slotAt_saveStep_ne (s : AdjFrame F R) (b : F) (t : String)
    (r : Eigen.Quaternion R) (v : Eigen.Translation3f R) (i : Int)
    (hi : i ≠ (s.saveStep b t r v).last_) :
    (s.saveStep b t r v).slotAt i = s.slotAt i := by
  have e : (s.saveStep b t r v).last_ = Int.tmod (s.last_ + 1) s.n_ := rfl
  rw [e] at hi
  show (match vecGet (vecSet s.adj_buffer _ b) _, vecGet (vecSet s.scenes_token_ _ t) _,
    vecGet (vecSet s.ego2global_rot_ _ r) _, vecGet (vecSet s.ego2global_trans_ _ v) _ with
    | some b, some t, some r, some v => some (FrameArgs.mk b t r v)
    | _, _, _, _ => none) = _
  rw [vecGet_vecSet_ne _ _ _ _ hi, vecGet_vecSet_ne _ _ _ _ hi, vecGet_vecSet_ne _ _ _ _ hi,
    vecGet_vecSet_ne _ _ _ _ hi]
  rfl

theorem hist_saveStep (N : Int) (s : AdjFrame F R) (hr : s.Ring N) (h : List (FrameArgs F R))
    (hh : s.Hist h) (b : F) (t : String) (r : Eigen.Quaternion R)
    (v : Eigen.Translation3f R) : (s.saveStep b t r v).Hist (⟨b, t, r, v⟩ :: h) := by
  have hr2 := ring_saveStep N s hr b t r v
  have hl := last_saveStep N s hr b t r v
  intro k hk hkN
  have hn : (s.saveStep b t r v).n_ = N := hr2.2.1
  rw [hn] at hkN
  cases k with
  | zero =>
    have e : (s.saveStep b t r v).slotIndex ((0 : Nat) : Int) = (s.saveStep b t r v).last_ := by
      rw [slotIndex_eq N _ hr2 _ (by simp) hkN]
      have := hr2.2.2.2.1
      simp [this]
    rw [e, slotAt_saveStep_self N s hr]
    simp
  | succ k =>
    have k1 : (k : Int) < N := by push_cast at hkN; omega
    have e1 := slotIndex_eq N _ hr2 ((k + 1 : Nat) : Int) (by omega) hkN
    have e2 := slotIndex_eq N s hr (k : Int) (by omega) k1
    obtain ⟨_, hsn, _, h0, h1, _, _⟩ := hr
    have e : (s.saveStep b t r v).slotIndex ((k + 1 : Nat) : Int) = s.slotIndex (k : Int) := by
      rw [e1, e2, hl]; push_cast; split <;> split <;> split <;> omega
    have ne : s.slotIndex (k : Int) ≠ (s.saveStep b t r v).last_ := by
      rw [e2, hl]; split <;> split <;> omega
    rw [e, slotAt_saveStep_ne s b t r v _ ne]
    have hk' : k < h.length := by simpa using hk
    have := hh k hk' (by rw [hsn]; exact k1)
    rw [this]
    simp

theorem ring_saveLoop (N : Int) (b : F) (t : String) (r : Eigen.Quaternion R)
    (v : Eigen.Translation3f R) (j : Nat) (s : AdjFrame F R) (hr : s.Ring N) :
    (saveLoop b t r v j s).Ring N := by
  induction j generalizing s with
  | zero => exact hr
  | succ j ih => exact ih _ (ring_saveStep N s hr b t r v)

theorem hist_saveLoop (N : Int) (b : F) (t : String) (r : Eigen.Quaternion R)
    (v : Eigen.Translation3f R) (j : Nat) (s : AdjFrame F R) (hr : s.Ring N)
    (h : List (FrameArgs F R)) (hh : s.Hist h) :
    (saveLoop b t r v j s).Hist (List.replicate j ⟨b, t, r, v⟩ ++ h) := by
  induction j generalizing s h with
  | zero => simpa [saveLoop] using hh
  | succ j ih =>
    have := ih _ (ring_saveStep N s hr b t r v) _ (hist_saveStep N s hr h hh b t r v)
    rw [List.replicate_succ', List.append_assoc]
    exact this

theorem last_saveLoop (N : Int) (b : F) (t : String) (r : Eigen.Quaternion R)
    (v : Eigen.Translation3f R) (j : Nat) (s : AdjFrame F R) (hr : s.Ring N)
    (hj : s.last_ + j ≤ N) :
    (saveLoop b t r v j s).last_ = if s.last_ + j = N then 0 else s.last_ + j := by
  induction j generalizing s with
  | zero =>
    obtain ⟨_, _, _, h0, h1, _, _⟩ := hr
    show s.last_ = _
    split <;> omega
  | succ j ih =>
    have hl := last_saveStep N s hr b t r v
    have hr2 := ring_saveStep N s hr b t r v
    obtain ⟨_, _, _, h0, h1, _, _⟩ := hr
    show (saveLoop b t r v j (s.saveStep b t r v)).last_ = _
    push_cast at hj ⊢
    by_cases hc : s.last_ + 1 = N
    · have hj0 : j = 0 := by omega
      subst hj0
      show (s.saveStep b t r v).last_ = _
      rw [hl]; simp [hc]
    · rw [if_neg hc] at hl
      rw [ih _ hr2 (by rw [hl]; omega), hl]
      split <;> split <;> omega

theorem buffer_num_saveLoop (N : Int) (b : F) (t : String) (r : Eigen.Quaternion R)
    (v : Eigen.Translation3f R) (j : Nat) (s : AdjFrame F R) (hr : s.Ring N) :
    (saveLoop b t r v j s).buffer_num_ = min (s.buffer_num_ + j) N := by
  induction j generalizing s with
  | zero =>
    obtain ⟨_, _, _, _, _, _, b1⟩ := hr
    show s.buffer_num_ = _
    simp; omega
  | succ j ih =>
    have hr2 := ring_saveStep N s hr b t r v
    obtain ⟨_, hn, _, _, _, _, b1⟩ := hr
    show (saveLoop b t r v j (s.saveStep b t r v)).buffer_num_ = _
    rw [ih _ hr2]
    show min (min (s.buffer_num_ + 1) s.n_ + j) N = _
    push_cast
    omega

theorem fixed_saveLoop (b : F) (t : String) (r : Eigen.Quaternion R)
    (v : Eigen.Translation3f R) (j : Nat) (s : AdjFrame F R) :
    (saveLoop b t r v j s).n_ = s.n_ ∧ (saveLoop b t r v j s).buf_size_ = s.buf_size_ ∧
    (saveLoop b t r v j s).init_ = s.init_ := by
  induction j generalizing s with
  | zero => exact ⟨rfl, rfl, rfl⟩
  | succ j ih => exact ih _

theorem slotAt_some (s : AdjFrame F R) (i : Int) (a : FrameArgs F R)
    (h : s.slotAt i = some a) :
    vecGet s.adj_buffer i = some a.curr_buffer ∧ vecGet s.scenes_token_ i = some a.curr_token ∧
    vecGet s.ego2global_rot_ i = some a.ego2global_rot ∧
    vecGet s.ego2global_trans_ i = some a.ego2global_trans := by
  unfold slotAt at h
  split at h
  · next b t r v e1 e2 e3 e4 =>
    cases h
    exact ⟨e1, e2, e3, e4⟩
  · cases h

theorem eq_replicate_of_vecGet {α : Type} (v : List α) (n : Nat) (a : α) (hlen : v.length = n)
    (h : ∀ i : Nat, i < n → vecGet v (i : Int) = some a) : v = List.replicate n a := by
  apply List.ext_getElem?
  intro i
  by_cases hi : i < n
  · have := h i hi
    simp only [vecGet, Int.toNat_ofNat] at this
    rw [if_pos (by omega)] at this
    rw [this]
    simp [hi]
  · rw [List.getElem?_eq_none (by omega), List.getElem?_eq_none (by simp; omega)]

theorem save_warm (s : AdjFrame F R) (a : FrameArgs F R) (hi : s.init_ = true) :
    s.save a =
      { s.saveStep a.curr_buffer a.curr_token a.ego2global_rot a.ego2global_trans with
        init_ := true } := by
  simp [save, saveFrameBuffer, hi, saveLoop]

theorem save_cold (s : AdjFrame F R) (a : FrameArgs F R) (hi : s.init_ = false) :
    s.save a =
      { saveLoop a.curr_buffer a.curr_token a.ego2global_rot a.ego2global_trans s.n_.toNat s with
        init_ := true } := by
  simp [save, saveFrameBuffer, hi]

theorem ring_save (N : Int) (s : AdjFrame F R) (hr : s.Ring N) (a : FrameArgs F R) :
    (s.save a).Ring N := by
  cases hi : s.init_ with
  | true =>
    rw [save_warm s a hi]
    exact ring_saveStep N s hr _ _ _ _
  | false =>
    rw [save_cold s a hi]
    exact ring_saveLoop N _ _ _ _ _ s hr

theorem fixed_save (s : AdjFrame F R) (a : FrameArgs F R) :
    (s.save a).n_ = s.n_ ∧ (s.save a).buf_size_ = s.buf_size_ ∧ (s.save a).init_ = true := by
  obtain ⟨h1, h2, _⟩ := fixed_saveLoop a.curr_buffer a.curr_token a.ego2global_rot
    a.ego2global_trans (if s.init_ then (1 : Int) else s.n_).toNat s
  exact ⟨h1, h2, rfl⟩

theorem inv_save_cold (N : Int) (s : AdjFrame F R) (hr : s.Ring N) (hi : s.init_ = false)
    (a : FrameArgs F R) : (s.save a).Inv N (List.replicate N.toNat a) := by
  have hr2 := ring_save N s hr a
  refine ⟨hr2, rfl, ?_, ?_⟩
  · rw [save_cold s a hi]
    show (saveLoop _ _ _ _ _ s).buffer_num_ = N
    rw [buffer_num_saveLoop N _ _ _ _ _ s hr]
    obtain ⟨hN, hn, _, _, _, b0, b1⟩ := hr
    rw [hn]
    have : ((N.toNat : Nat) : Int) = N := Int.toNat_of_nonneg (by omega)
    omega
  · rw [save_cold s a hi]
    have := hist_saveLoop N a.curr_buffer a.curr_token a.ego2global_rot a.ego2global_trans
      s.n_.toNat s hr [] (fun k hk _ => by simp at hk)
    rw [hr.2.1, List.append_nil] at this
    rw [hr.2.1]
    exact this

theorem inv_save_warm (N : Int) (s : AdjFrame F R) (h : List (FrameArgs F R))
    (hv : s.Inv N h) (a : FrameArgs F R) : (s.save a).Inv N (a :: h) := by
  obtain ⟨hr, hi, hb, hh⟩ := hv
  refine ⟨ring_save N s hr a, rfl, ?_, ?_⟩
  · rw [save_warm s a hi]
    show min (s.buffer_num_ + 1) s.n_ = N
    rw [hr.2.1, hb]
    omega
  · rw [save_warm s a hi]
    exact hist_saveStep N s hr h hh _ _ _ _

theorem inv_saves (N : Int) (fs : List (FrameArgs F R)) (s : AdjFrame F R)
    (h : List (FrameArgs F R)) (hv : s.Inv N h) : (s.saves fs).Inv N (fs.reverse ++ h) := by
  induction fs generalizing s h with
  | nil => simpa [saves] using hv
  | cons a fs ih =>
    have := ih (s.save a) (a :: h) (inv_save_warm N s h hv a)
    simpa [saves] using this

theorem inv_saves_cold (N : Int) (s : AdjFrame F R) (hr : s.Ring N) (hi : s.init_ = false)
    (a : FrameArgs F R) (fs : List (FrameArgs F R)) :
    (s.saves (a :: fs)).Inv N (fs.reverse ++ List.replicate N.toNat a) :=
  inv_saves N fs (s.save a) _ (inv_save_cold N s hr hi a)

theorem lookup_of_hist (N : Int) (s : AdjFrame F R) (h : List (FrameArgs F R))
    (hh : s.Hist h) (hn : s.n_ = N) (k : Nat) (hk : (k : Int) < N) (a : FrameArgs F R)
    (ha : h[k]? = some a) :
    s.getFrameBuffer k = some a.curr_buffer ∧
    s.getEgo2Global k = some (a.ego2global_rot, a.ego2global_trans) := by
  have hlen : k < h.length := by
    rcases Nat.lt_or_ge k h.length with hlt | hge
    · exact hlt
    · rw [List.getElem?_eq_none hge] at ha; cases ha
  have hs := hh k hlen (by rw [hn]; exact hk)
  rw [ha] at hs
  obtain ⟨e1, _, e3, e4⟩ := slotAt_some s _ a hs
  refine ⟨e1, ?_⟩
  show (match vecGet s.ego2global_rot_ (s.slotIndex k), vecGet s.ego2global_trans_ (s.slotIndex k)
    with
    | some adj_ego2global_rot, some adj_ego2global_trans =>
      some (adj_ego2global_rot, adj_ego2global_trans)
    | _, _ => none) = _
  rw [e3, e4]

theorem hist_index (a : FrameArgs F R) (fs : List (FrameArgs F R)) (n k : Nat)
    (hk : k < fs.length + n) :
    (fs.reverse ++ List.replicate n a)[k]? = (a :: fs)[fs.length - k]? := by
  rcases Nat.lt_or_ge k fs.length with hlt | hge
  · rw [List.getElem?_append_left (by simpa using hlt), List.getElem?_reverse hlt]
    have e : fs.length - k = (fs.length - 1 - k) + 1 := by omega
    rw [e, List.getElem?_cons_succ]
  · rw [List.getElem?_append_right (by simpa using hge)]
    have e : fs.length - k = 0 := by omega
    rw [e, List.getElem?_replicate]
    simp
    omega

theorem ring_create [Zero F] [Zero R] (N : Int) (size : Nat) (hN : 1 ≤ N) :
    (create N size : AdjFrame F R).Ring N := by
  refine ⟨hN, rfl, ⟨?_, ?_, ?_, ?_⟩, ?_, ?_, ?_, ?_⟩ <;> simp [create] <;> omega

theorem ring_reset (N : Int) (s : AdjFrame F R) (hr : s.Ring N) : s.reset.Ring N := by
  obtain ⟨hN, hn, hs, _, _, _, _⟩ := hr
  exact ⟨hN, hn, hs, le_refl 0, by show (0 : Int) < N; omega, le_refl 0,
    by show (0 : Int) ≤ N; omega⟩

theorem ring_run (N : Int) (cs : List (Call F R)) (s : AdjFrame F R) (hr : s.Ring N) :
    (s.run cs).Ring N := by
  induction cs generalizing s with
  | nil => exact hr
  | cons c cs ih =>
    cases c with
    | save a => exact ih _ (ring_save N s hr a)
    | reset => exact ih _ (ring_reset N s hr)

theorem buf_size_run (cs : List (Call F R)) (s : AdjFrame F R) :
    (s.run cs).buf_size_ = s.buf_size_ := by
  induction cs generalizing s with
  | nil => rfl
  | cons c cs ih =>
    cases c with
    | save a => exact (ih (s.save a)).trans (fixed_save s a).2.1
    | reset => exact ih s.reset

theorem lookup_saves (N : Int) (s : AdjFrame F R) (hr : s.Ring N) (hi : s.init_ = false)
    (gs : List (FrameArgs F R)) (k : Nat) (hk : (k : Int) < N) (a : FrameArgs F R)
    (hne : gs ≠ []) (ha : gs[gs.length - 1 - k]? = some a) :
    (s.saves gs).getFrameBuffer k = some a.curr_buffer ∧
    (s.saves gs).getEgo2Global k = some (a.ego2global_rot, a.ego2global_trans) := by
  cases gs with
  | nil => exact absurd rfl hne
  | cons g fs =>
    obtain ⟨hr2, _, _, hh⟩ := inv_saves_cold N s hr hi g fs
    have hN := hr.1
    apply lookup_of_hist N _ _ hh hr2.2.1 k hk a
    rw [hist_index g fs N.toNat k (by omega)]
    simpa using ha

theorem last_save_cold (N : Int) (s : AdjFrame F R) (hr : s.Ring N) (hi : s.init_ = false)
    (hl : s.last_ = 0) (a : FrameArgs F R) : (s.save a).last_ = 0 := by
  rw [save_cold s a hi]
  show (saveLoop _ _ _ _ _ s).last_ = 0
  have hN := hr.1
  have e : ((s.n_.toNat : Nat) : Int) = N := by
    rw [hr.2.1]; exact Int.toNat_of_nonneg (by omega)
  rw [last_saveLoop N _ _ _ _ _ s hr (by rw [hl, e]; omega), hl, e]
  simp

theorem slotAt_save_cold (N : Int) (s : AdjFrame F R) (hr : s.Ring N) (hi : s.init_ = false)
    (hl : s.last_ = 0) (a : FrameArgs F R) (i : Nat) (hiN : (i : Int) < N) :
    (s.save a).slotAt i = some a := by
  obtain ⟨hr2, _, _, hh⟩ := inv_save_cold N s hr hi a
  have hl2 := last_save_cold N s hr hi hl a
  have hN := hr.1
  have hcast : ((N.toNat : Nat) : Int) = N := Int.toNat_of_nonneg (by omega)
  have key : ∀ k : Nat, (k : Int) < N → (s.save a).slotIndex k = (i : Int) →
      (s.save a).slotAt i = some a := by
    intro k hk e
    have := hh k (by simp; omega) (by rw [hr2.2.1]; exact hk)
    rw [e] at this
    rw [this, List.getElem?_replicate]
    simp; omega
  cases i with
  | zero =>
    apply key 0 (by simp; omega)
    rw [slotIndex_eq N _ hr2 _ (by simp) (by simp; omega), hl2]
    simp
  | succ i =>
    push_cast at hiN
    apply key (N.toNat - (i + 1)) (by omega)
    rw [slotIndex_eq N _ hr2 _ (by omega) (by omega), hl2]
    push_cast
    split <;> omega

theorem save_broadcast (N : Int) (s : AdjFrame F R) (hr : s.Ring N) (hi : s.init_ = false)
    (hl : s.last_ = 0) (a : FrameArgs F R) :
    s.save a =
      { n_ := N
        buf_size_ := s.buf_size_
        last_ := 0
        buffer_num_ := N
        init_ := true
        scenes_token_ := List.replicate N.toNat a.curr_token
        ego2global_rot_ := List.replicate N.toNat a.ego2global_rot
        ego2global_trans_ := List.replicate N.toNat a.ego2global_trans
        adj_buffer := List.replicate N.toNat a.curr_buffer } := by
  obtain ⟨hr2, _, hb, _⟩ := inv_save_cold N s hr hi a
  have hN := hr.1
  have hcast : ((N.toNat : Nat) : Int) = N := Int.toNat_of_nonneg (by omega)
  have hslot : ∀ i : Nat, i < N.toNat → (s.save a).slotAt i = some a :=
    fun i hlt => slotAt_save_cold N s hr hi hl a i (by omega)
  obtain ⟨_, hn, ⟨z1, z2, z3, z4⟩, _, _, _, _⟩ := hr2
  rw [hn] at z1 z2 z3 z4
  apply AdjFrame.ext
  · exact hn
  · exact (fixed_save s a).2.1
  · exact last_save_cold N s hr hi hl a
  · exact hb
  · rfl
  · exact eq_replicate_of_vecGet _ _ _ z1 (fun i hlt => (slotAt_some _ _ a (hslot i hlt)).2.1)
  · exact eq_replicate_of_vecGet _ _ _ z2 (fun i hlt => (slotAt_some _ _ a (hslot i hlt)).2.2.1)
  · exact eq_replicate_of_vecGet _ _ _ z3 (fun i hlt => (slotAt_some _ _ a (hslot i hlt)).2.2.2)
  · exact eq_replicate_of_vecGet _ _ _ z4 (fun i hlt => (slotAt_some _ _ a (hslot i hlt)).1)

/-- C1 (ring buffer wrap): on a freshly constructed buffer of capacity `N ≥ 1`, after the
`m ≥ N` saves `fs`, for every logical offset `k < N` both `getFrameBuffer k` and
`getEgo2Global k` return the feature and the pose of the `(m - k)`-th save, which is the entry
of `fs` at position `m - 1 - k` counted from zero. -/
theorem lookup_after_wrap [Zero F] [Zero R] (N : Int) (size : Nat) (hN : 1 ≤ N)
    (fs : List (FrameArgs F R)) (hm : N ≤ (fs.length : Int)) (k : Nat) (hk : (k : Int) < N) :
    ∃ a, fs[fs.length - 1 - k]? = some a ∧
      ((create N size).saves fs).getFrameBuffer k = some a.curr_buffer ∧
      ((create N size).saves fs).getEgo2Global k =
        some (a.ego2global_rot, a.ego2global_trans) := by
  have hlt : fs.length - 1 - k < fs.length := by omega
  refine ⟨fs[fs.length - 1 - k], List.getElem?_eq_getElem hlt, ?_⟩
  have hne : fs ≠ [] := by
    intro h; rw [h] at hlt; simp at hlt
  have := lookup_saves N (create N size) (ring_create N size hN) rfl fs k hk _ hne
    (List.getElem?_eq_getElem hlt)
  exact this

/-- Witness of C1: five saves into a buffer of capacity 3 leave the frames 5, 4, 3 at the
logical offsets 0, 1, 2. -/
theorem lookup_after_wrap_witness :
    (1 : Int) ≤ 3 ∧ (3 : Int) ≤ (fiveFrames.length : Int) ∧
    ((create 3 16 : AdjFrame Nat Int).saves fiveFrames).getFrameBuffer (0 : Nat) = some 5 ∧
    ((create 3 16 : AdjFrame Nat Int).saves fiveFrames).getFrameBuffer (1 : Nat) = some 4 ∧
    ((create 3 16 : AdjFrame Nat Int).saves fiveFrames).getFrameBuffer (2 : Nat) = some 3 ∧
    ((create 3 16 : AdjFrame Nat Int).saves fiveFrames).getEgo2Global (2 : Nat) =
      some (⟨1, 0, 0, 3⟩, ⟨3, 6, 0⟩) := by
  obtain ⟨a0, h0, b0, _⟩ :=
    lookup_after_wrap 3 16 (by decide) fiveFrames (by decide) 0 (by decide)
  obtain ⟨a1, h1, b1, _⟩ :=
    lookup_after_wrap 3 16 (by decide) fiveFrames (by decide) 1 (by decide)
  obtain ⟨a2, h2, b2, p2⟩ :=
    lookup_after_wrap 3 16 (by decide) fiveFrames (by decide) 2 (by decide)
  simp [fiveFrames] at h0 h1 h2
  subst h0 h1 h2
  exact ⟨by decide, by decide, b0, b1, b2, p2⟩

/-- C2 (cold-start broadcast): after exactly one `saveFrameBuffer f token rot trans` on a
freshly constructed buffer of capacity `N ≥ 1`, each of the `N` slots holds `f`, `token`, `rot`
and `trans`, and for every `k` in `[0, N)` `getFrameBuffer k` returns `f` and `getEgo2Global k`
returns `(rot, trans)`. -/
theorem cold_start_broadcast [Zero F] [Zero R] (N : Int) (size : Nat) (hN : 1 ≤ N) (f : F)
    (token : String) (rot : Eigen.Quaternion R) (trans : Eigen.Translation3f R) :
    ((create N size).saveFrameBuffer f token rot trans).adj_buffer = List.replicate N.toNat f ∧
    ((create N size).saveFrameBuffer f token rot trans).scenes_token_ =
      List.replicate N.toNat token ∧
    ((create N size).saveFrameBuffer f token rot trans).ego2global_rot_ =
      List.replicate N.toNat rot ∧
    ((create N size).saveFrameBuffer f token rot trans).ego2global_trans_ =
      List.replicate N.toNat trans ∧
    ∀ k : Nat, (k : Int) < N →
      ((create N size).saveFrameBuffer f token rot trans).getFrameBuffer k = some f ∧
      ((create N size).saveFrameBuffer f token rot trans).getEgo2Global k = some (rot, trans) := by
  have h := save_broadcast N (create N size) (ring_create N size hN) rfl rfl ⟨f, token, rot, trans⟩
  change (create N size).saveFrameBuffer f token rot trans = _ at h
  refine ⟨by rw [h], by rw [h], by rw [h], by rw [h], ?_⟩
  intro k hk
  have := lookup_saves N (create N size) (ring_create N size hN) rfl [⟨f, token, rot, trans⟩] k hk
    ⟨f, token, rot, trans⟩ (by simp) (by simp)
  exact this

/-- Witness of C2 at capacity 3. -/
theorem cold_start_broadcast_witness :
    (1 : Int) ≤ 3 ∧
    ((create 3 16 : AdjFrame Nat Int).saveFrameBuffer 7 "a" ⟨1, 0, 0, 0⟩ ⟨4, 5, 6⟩).adj_buffer =
      [7, 7, 7] ∧
    ((create 3 16 : AdjFrame Nat Int).saveFrameBuffer 7 "a" ⟨1, 0, 0, 0⟩
      ⟨4, 5, 6⟩).scenes_token_ = ["a", "a", "a"] :=
  ⟨by decide, (cold_start_broadcast 3 16 (by decide) 7 "a" ⟨1, 0, 0, 0⟩ ⟨4, 5, 6⟩).1,
    (cold_start_broadcast 3 16 (by decide) 7 "a" ⟨1, 0, 0, 0⟩ ⟨4, 5, 6⟩).2.1⟩

/-- C3 (reset clears history): for every state reached from a freshly constructed buffer of
capacity `N ≥ 1` by a sequence of `saveFrameBuffer` and `reset` calls, saving `x` after `reset`
gives the very state that saving `x` into a freshly constructed buffer gives (the same `last_`,
`buffer_num_`, `init_`, and the same feature, scene token and pose in every slot). -/
theorem save_after_reset [Zero F] [Zero R] (N : Int) (size : Nat) (hN : 1 ≤ N)
    (cs : List (Call F R)) (x : FrameArgs F R) :
    (((create N size).run cs).reset.saveFrameBuffer x.curr_buffer x.curr_token x.ego2global_rot
      x.ego2global_trans) =
    (create N size).saveFrameBuffer x.curr_buffer x.curr_token x.ego2global_rot
      x.ego2global_trans := by
  have h1 := save_broadcast N ((create N size).run cs).reset
    (ring_reset N _ (ring_run N cs _ (ring_create N size hN))) rfl rfl x
  have h2 := save_broadcast N (create N size) (ring_create N size hN) rfl rfl x
  have hb : ((create N size : AdjFrame F R).run cs).reset.buf_size_
      = (create N size : AdjFrame F R).buf_size_ := buf_size_run cs _
  rw [hb] at h1
  exact h1.trans h2.symm

/-- Witness of C3: capacity 3, after two saves, a reset and one more save. -/
theorem save_after_reset_witness :
    (1 : Int) ≤ 3 ∧
    (((create 3 16 : AdjFrame Nat Int).run
      [.save (exampleFrame 1 "a"), .save (exampleFrame 2 "b"), .reset,
        .save (exampleFrame 3 "c")]).reset.saveFrameBuffer 4 "d" ⟨1, 0, 0, 4⟩ ⟨4, 8, 0⟩) =
    (create 3 16 : AdjFrame Nat Int).saveFrameBuffer 4 "d" ⟨1, 0, 0, 4⟩ ⟨4, 8, 0⟩ :=
  ⟨by decide, save_after_reset 3 16 (by decide) _ ⟨4, "d", ⟨1, 0, 0, 4⟩, ⟨4, 8, 0⟩⟩⟩

/-- C4 (ring buffer underrun): on a freshly constructed buffer of capacity `N ≥ 1`, after the
`m` saves `fs` with `1 ≤ m < N`, every lookup at a logical offset `k < N` returns the feature
and pose of a frame of `fs`: the `(m - k)`-th saved frame when `k < m`, and the first saved
frame when `k ≥ m`. -/
theorem lookup_underrun [Zero F] [Zero R] (N : Int) (size : Nat) (hN : 1 ≤ N)
    (fs : List (FrameArgs F R)) (hm1 : 1 ≤ fs.length) (hm : (fs.length : Int) < N) (k : Nat)
    (hk : (k : Int) < N) :
    ∃ a, a ∈ fs ∧ (if k < fs.length then fs[fs.length - 1 - k]? else fs[0]?) = some a ∧
      ((create N size).saves fs).getFrameBuffer k = some a.curr_buffer ∧
      ((create N size).saves fs).getEgo2Global k =
        some (a.ego2global_rot, a.ego2global_trans) := by
  have _ := hm
  have hlt : fs.length - 1 - k < fs.length := by omega
  have hne : fs ≠ [] := by
    intro h; rw [h] at hlt; simp at hlt
  have := lookup_saves N (create N size) (ring_create N size hN) rfl fs k hk _ hne
    (List.getElem?_eq_getElem hlt)
  refine ⟨fs[fs.length - 1 - k], List.getElem_mem hlt, ?_, this.1, this.2⟩
  split
  · exact List.getElem?_eq_getElem hlt
  · next h =>
    have e : fs.length - 1 - k = 0 := by omega
    rw [List.getElem?_eq_getElem (by omega)]
    simp [e]

/-- Witness of C4: two saves into a buffer of capacity 4; the offsets 0 and 1 give the frames
2 and 1, the offsets 2 and 3 give frame 1 again. -/
theorem lookup_underrun_witness :
    (1 : Int) ≤ 4 ∧ 1 ≤ (fiveFrames.take 2).length ∧ ((fiveFrames.take 2).length : Int) < 4 ∧
    ((create 4 16 : AdjFrame Nat Int).saves (fiveFrames.take 2)).getFrameBuffer (0 : Nat) =
      some 2 ∧
    ((create 4 16 : AdjFrame Nat Int).saves (fiveFrames.take 2)).getFrameBuffer (3 : Nat) =
      some 1 := by
  obtain ⟨a0, _, h0, b0, _⟩ :=
    lookup_underrun 4 16 (by decide) (fiveFrames.take 2) (by decide) (by decide) 0 (by decide)
  obtain ⟨a3, _, h3, b3, _⟩ :=
    lookup_underrun 4 16 (by decide) (fiveFrames.take 2) (by decide) (by decide) 3 (by decide)
  simp [fiveFrames] at h0 h3
  subst h0 h3
  exact ⟨by decide, by decide, by decide, b0, b3⟩

/-- C5 (one slot per save once initialised): in a state of a buffer of capacity `N ≥ 1` with
`init_ = true` and `0 ≤ last_ < N`, one `saveFrameBuffer f token rot trans` moves `last_` to
`(last_ + 1) mod N`, stores `f`, `token`, `rot` and `trans` in that slot, and leaves the
feature, scene token, rotation and translation of every other slot as they were. -/
theorem save_writes_one_slot (N : Int) (hN : 1 ≤ N) (s : AdjFrame F R) (hn : s.n_ = N)
    (hs : s.Sized) (hi : s.init_ = true) (h0 : 0 ≤ s.last_) (h1 : s.last_ < N) (f : F)
    (token : String) (rot : Eigen.Quaternion R) (trans : Eigen.Translation3f R) :
    (s.saveFrameBuffer f token rot trans).last_ = (s.last_ + 1) % N ∧
    vecGet (s.saveFrameBuffer f token rot trans).adj_buffer
      (s.saveFrameBuffer f token rot trans).last_ = some f ∧
    vecGet (s.saveFrameBuffer f token rot trans).scenes_token_
      (s.saveFrameBuffer f token rot trans).last_ = some token ∧
    vecGet (s.saveFrameBuffer f token rot trans).ego2global_rot_
      (s.saveFrameBuffer f token rot trans).last_ = some rot ∧
    vecGet (s.saveFrameBuffer f token rot trans).ego2global_trans_
      (s.saveFrameBuffer f token rot trans).last_ = some trans ∧
    ∀ i : Int, i ≠ (s.saveFrameBuffer f token rot trans).last_ →
      vecGet (s.saveFrameBuffer f token rot trans).adj_buffer i = vecGet s.adj_buffer i ∧
      vecGet (s.saveFrameBuffer f token rot trans).scenes_token_ i = vecGet s.scenes_token_ i ∧
      vecGet (s.saveFrameBuffer f token rot trans).ego2global_rot_ i =
        vecGet s.ego2global_rot_ i ∧
      vecGet (s.saveFrameBuffer f token rot trans).ego2global_trans_ i =
        vecGet s.ego2global_trans_ i := by
  have _ := h1
  have e : s.saveFrameBuffer f token rot trans =
      { s.saveStep f token rot trans with init_ := true } := save_warm s ⟨f, token, rot, trans⟩ hi
  have el : (s.saveFrameBuffer f token rot trans).last_ = Int.tmod (s.last_ + 1) N := by
    rw [e, ← hn]; rfl
  have em : Int.tmod (s.last_ + 1) N = (s.last_ + 1) % N :=
    Int.tmod_eq_emod (by omega) (by omega)
  have hb : 0 ≤ (s.last_ + 1) % N ∧ (s.last_ + 1) % N < N :=
    ⟨Int.emod_nonneg _ (by omega), Int.emod_lt_of_pos _ (by omega)⟩
  obtain ⟨z1, z2, z3, z4⟩ := hs
  rw [hn] at z1 z2 z3 z4
  have hlt : ((s.last_ + 1) % N).toNat < N.toNat := by omega
  rw [el, em, e]
  refine ⟨rfl, ?_, ?_, ?_, ?_, ?_⟩
  · show vecGet (vecSet s.adj_buffer (Int.tmod (s.last_ + 1) s.n_) f) _ = _
    rw [hn, em]
    exact vecGet_vecSet_self _ _ _ hb.1 (by rw [z4]; exact hlt)
  · show vecGet (vecSet s.scenes_token_ (Int.tmod (s.last_ + 1) s.n_) token) _ = _
    rw [hn, em]
    exact vecGet_vecSet_self _ _ _ hb.1 (by rw [z1]; exact hlt)
  · show vecGet (vecSet s.ego2global_rot_ (Int.tmod (s.last_ + 1) s.n_) rot) _ = _
    rw [hn, em]
    exact vecGet_vecSet_self _ _ _ hb.1 (by rw [z2]; exact hlt)
  · show vecGet (vecSet s.ego2global_trans_ (Int.tmod (s.last_ + 1) s.n_) trans) _ = _
    rw [hn, em]
    exact vecGet_vecSet_self _ _ _ hb.1 (by rw [z3]; exact hlt)
  · intro i hne
    refine ⟨?_, ?_, ?_, ?_⟩
    · show vecGet (vecSet s.adj_buffer (Int.tmod (s.last_ + 1) s.n_) f) i = _
      rw [hn, em]
      exact vecGet_vecSet_ne _ _ _ _ hne
    · show vecGet (vecSet s.scenes_token_ (Int.tmod (s.last_ + 1) s.n_) token) i = _
      rw [hn, em]
      exact vecGet_vecSet_ne _ _ _ _ hne
    · show vecGet (vecSet s.ego2global_rot_ (Int.tmod (s.last_ + 1) s.n_) rot) i = _
      rw [hn, em]
      exact vecGet_vecSet_ne _ _ _ _ hne
    · show vecGet (vecSet s.ego2global_trans_ (Int.tmod (s.last_ + 1) s.n_) trans) i = _
      rw [hn, em]
      exact vecGet_vecSet_ne _ _ _ _ hne

/-- Witness of C5: saving frame 9 into `warmState` (capacity 3, `last_ = 1`) moves `last_`
to 2, stores the frame there and keeps slot 0. -/
theorem save_writes_one_slot_witness :
    (1 : Int) ≤ 3 ∧ warmState.n_ = 3 ∧ warmState.Sized ∧ warmState.init_ = true ∧
    0 ≤ warmState.last_ ∧ warmState.last_ < 3 ∧
    (warmState.saveFrameBuffer 9 "z" ⟨1, 0, 0, 0⟩ ⟨0, 0, 0⟩).last_ = (warmState.last_ + 1) % 3 ∧
    vecGet (warmState.saveFrameBuffer 9 "z" ⟨1, 0, 0, 0⟩ ⟨0, 0, 0⟩).adj_buffer
      (warmState.saveFrameBuffer 9 "z" ⟨1, 0, 0, 0⟩ ⟨0, 0, 0⟩).last_ = some 9 :=
  have h := save_writes_one_slot 3 (by decide) warmState rfl ⟨rfl, rfl, rfl, rfl⟩ rfl
    (by decide) (by decide) 9 "z" ⟨1, 0, 0, 0⟩ ⟨0, 0, 0⟩
  ⟨by decide, rfl, ⟨rfl, rfl, rfl, rfl⟩, rfl, by decide, by decide, h.1, h.2.1⟩

/-- C6 (`havingBuffer`): `havingBuffer k` is 1 exactly when `k < buffer_num_` and 0 otherwise.
For a buffer of capacity `N ≥ 1`: after one or more saves following construction, or following
a `reset` of any reachable state, it is 1 for every `k < N`; before any save following
construction or `reset` it is 0 for every `k ≥ 0`. -/
theorem havingBuffer_spec [Zero F] [Zero R] (N : Int) (size : Nat) (hN : 1 ≤ N) :
    (∀ (s : AdjFrame F R) (k : Int),
      (s.havingBuffer k = 1 ↔ k < s.buffer_num_) ∧
      (s.havingBuffer k = 0 ↔ ¬ k < s.buffer_num_)) ∧
    (∀ (fs : List (FrameArgs F R)) (k : Int), fs ≠ [] → k < N →
      ((create N size).saves fs).havingBuffer k = 1) ∧
    (∀ (cs : List (Call F R)) (fs : List (FrameArgs F R)) (k : Int), fs ≠ [] → k < N →
      (((create N size).run cs).reset.saves fs).havingBuffer k = 1) ∧
    (∀ k : Int, 0 ≤ k → (create N size : AdjFrame F R).havingBuffer k = 0) ∧
    (∀ (cs : List (Call F R)) (k : Int), 0 ≤ k →
      ((create N size).run cs).reset.havingBuffer k = 0) := by
  have full : ∀ (s : AdjFrame F R), s.Ring N → s.init_ = false →
      ∀ (fs : List (FrameArgs F R)) (k : Int), fs ≠ [] → k < N →
      (s.saves fs).havingBuffer k = 1 := by
    intro s hr hi fs k hne hk
    cases fs with
    | nil => exact absurd rfl hne
    | cons g fs =>
      obtain ⟨_, _, hb, _⟩ := inv_saves_cold N s hr hi g fs
      unfold havingBuffer
      rw [hb, if_pos hk]
  refine ⟨?_, ?_, ?_, ?_, ?_⟩
  · intro s k
    unfold havingBuffer
    constructor
    · split <;> simp_all
    · split <;> simp_all
  · exact full _ (ring_create N size hN) rfl
  · intro cs
    exact full _ (ring_reset N _ (ring_run N cs _ (ring_create N size hN))) rfl
  · intro k hk
    show (if k < (0 : Int) then (1 : Int) else 0) = 0
    rw [if_neg (by omega)]
  · intro cs k hk
    show (if k < (0 : Int) then (1 : Int) else 0) = 0
    rw [if_neg (by omega)]

/-- Witness of C6: capacity 3, one save; `havingBuffer 2` is already 1. -/
theorem havingBuffer_spec_witness :
    (1 : Int) ≤ 3 ∧
    ((create 3 16 : AdjFrame Nat Int).saves [exampleFrame 1 "a"]).havingBuffer 2 = 1 ∧
    (create 3 16 : AdjFrame Nat Int).havingBuffer 0 = 0 :=
  ⟨by decide,
    (havingBuffer_spec 3 16 (by decide)).2.1 [exampleFrame 1 "a"] 2 (by simp) (by decide),
    (havingBuffer_spec 3 16 (by decide)).2.2.2.1 0 (by decide)⟩

theorem slotAt_last_save (N : Int) (s : AdjFrame F R) (hr : s.Ring N) (a : FrameArgs F R) :
    (s.save a).slotAt (s.save a).last_ = some a := by
  have hr2 := ring_save N s hr a
  have hN := hr.1
  have e : (s.save a).slotIndex ((0 : Nat) : Int) = (s.save a).last_ := by
    rw [slotIndex_eq N _ hr2 _ (by simp) (by simp; omega)]
    have := hr2.2.2.2.1
    simp [this]
  have hk : ((0 : Nat) : Int) < (s.save a).n_ := by rw [hr2.2.1]; simp; omega
  rw [← e]
  cases hi : s.init_ with
  | false =>
    obtain ⟨_, _, _, hh⟩ := inv_save_cold N s hr hi a
    rw [hh 0 (by simp; omega) hk, List.getElem?_replicate]
    simp; omega
  | true =>
    have hh : (s.save a).Hist [a] := by
      rw [save_warm s a hi]
      exact hist_saveStep N s hr [] (fun k hk _ => by simp at hk) _ _ _ _
    rw [hh 0 (by simp) hk]
    simp

/-- C7, as amended (`last_` points at the most recently written slot): in every state reached
from a freshly constructed buffer of capacity `N ≥ 1` by a sequence of `saveFrameBuffer` and
`reset` calls whose final call is a save, the slot `last_` holds the feature, scene token and
pose of that save, so `lastScenesToken` returns its scene token. -/
theorem lastScenesToken_after_save [Zero F] [Zero R] (N : Int) (size : Nat) (hN : 1 ≤ N)
    (cs : List (Call F R)) (a : FrameArgs F R) :
    ((create N size).run (cs ++ [Call.save a])).lastScenesToken = some a.curr_token ∧
    vecGet ((create N size).run (cs ++ [Call.save a])).adj_buffer
      ((create N size).run (cs ++ [Call.save a])).last_ = some a.curr_buffer ∧
    vecGet ((create N size).run (cs ++ [Call.save a])).ego2global_rot_
      ((create N size).run (cs ++ [Call.save a])).last_ = some a.ego2global_rot ∧
    vecGet ((create N size).run (cs ++ [Call.save a])).ego2global_trans_
      ((create N size).run (cs ++ [Call.save a])).last_ = some a.ego2global_trans := by
  have e : (create N size).run (cs ++ [Call.save a]) = ((create N size).run cs).save a := by
    simp [run, call]
  rw [e]
  have := slotAt_last_save N _ (ring_run N cs _ (ring_create N size hN)) a
  obtain ⟨e1, e2, e3, e4⟩ := slotAt_some _ _ a this
  exact ⟨e2, e1, e3, e4⟩

/-- Witness of C7 as amended: capacity 3, the calls save 1, reset, save 2, save 3. -/
theorem lastScenesToken_after_save_witness :
    (1 : Int) ≤ 3 ∧
    ((create 3 16 : AdjFrame Nat Int).run
      ([.save (exampleFrame 1 "a"), .reset, .save (exampleFrame 2 "b")] ++
        [Call.save (exampleFrame 3 "c")])).lastScenesToken = some "c" :=
  ⟨by decide, (lastScenesToken_after_save 3 16 (by decide) _ (exampleFrame 3 "c")).1⟩

/-- Counterexample to C7 as stated: capacity 3 and the calls save 1 (token "a"), save 2
(token "b"), reset.  The sequence contains a save, the most recent save wrote slot 1 with token
"b", yet `last_` is 0 and `lastScenesToken` returns "a". -/
theorem lastScenesToken_after_reset_counterexample :
    ((create 3 16 : AdjFrame Nat Int).run
      [.save (exampleFrame 1 "a"), .save (exampleFrame 2 "b"), .reset]).lastScenesToken
        = some "a" ∧
    ((create 3 16 : AdjFrame Nat Int).run
      [.save (exampleFrame 1 "a"), .save (exampleFrame 2 "b"), .reset]).lastScenesToken
        ≠ some (exampleFrame 2 "b").curr_token ∧
    ((create 3 16 : AdjFrame Nat Int).run
      [.save (exampleFrame 1 "a"), .save (exampleFrame 2 "b"), .reset]).last_ = 0 ∧
    vecGet ((create 3 16 : AdjFrame Nat Int).run
      [.save (exampleFrame 1 "a"), .save (exampleFrame 2 "b"), .reset]).scenes_token_ 1
        = some "b" := by
  decide

/-- C8, as amended (`buffer_num_` after `m` saves): on a buffer of capacity `N ≥ 1`, after the
`m` saves `fs` since construction, or since a `reset` of any reachable state, `buffer_num_` is
0 when `m = 0` and `N` when `m ≥ 1`. -/
theorem buffer_num_after_saves [Zero F] [Zero R] (N : Int) (size : Nat) (hN : 1 ≤ N)
    (fs : List (FrameArgs F R)) :
    ((create N size).saves fs).buffer_num_ = (if fs.length = 0 then 0 else N) ∧
    ∀ cs : List (Call F R),
      (((create N size).run cs).reset.saves fs).buffer_num_ =
        (if fs.length = 0 then 0 else N) := by
  have full : ∀ (s : AdjFrame F R), s.Ring N → s.init_ = false → s.buffer_num_ = 0 →
      (s.saves fs).buffer_num_ = (if fs.length = 0 then 0 else N) := by
    intro s hr hi hb
    cases fs with
    | nil => simpa [saves] using hb
    | cons g fs =>
      obtain ⟨_, _, hb2, _⟩ := inv_saves_cold N s hr hi g fs
      rw [hb2]
      simp
  exact ⟨full _ (ring_create N size hN) rfl rfl,
    fun cs => full _ (ring_reset N _ (ring_run N cs _ (ring_create N size hN))) rfl rfl⟩

/-- Witness of C8 as amended: capacity 3, two saves, `buffer_num_ = 3`. -/
theorem buffer_num_after_saves_witness :
    (1 : Int) ≤ 3 ∧
    ((create 3 16 : AdjFrame Nat Int).saves (fiveFrames.take 2)).buffer_num_ = 3 :=
  ⟨by decide, (buffer_num_after_saves 3 16 (by decide) (fiveFrames.take 2)).1⟩

/-- Counterexample to C8 as stated: capacity 3 and one save since construction give
`buffer_num_ = 3`, not `min 1 3 = 1`. -/
theorem buffer_num_one_save_counterexample :
    ((create 3 16 : AdjFrame Nat Int).saves [exampleFrame 1 "a"]).buffer_num_ = 3 ∧
    ((create 3 16 : AdjFrame Nat Int).saves [exampleFrame 1 "a"]).buffer_num_ ≠
      min (([exampleFrame 1 "a"].length : Nat) : Int) 3 := by
  decide

/-- C9 (`reset` keeps the storage): `reset` sets `buffer_num_` to 0, `init_` to false and
`last_` to 0, and leaves the capacity `n_`, the slot size `buf_size_` and the stored features,
scene tokens, rotations and translations as they were. -/
theorem reset_frame (s : AdjFrame F R) :
    s.reset.buffer_num_ = 0 ∧ s.reset.init_ = false ∧ s.reset.last_ = 0 ∧
    s.reset.n_ = s.n_ ∧ s.reset.buf_size_ = s.buf_size_ ∧
    s.reset.adj_buffer = s.adj_buffer ∧ s.reset.scenes_token_ = s.scenes_token_ ∧
    s.reset.ego2global_rot_ = s.ego2global_rot_ ∧
    s.reset.ego2global_trans_ = s.ego2global_trans_ :=
  ⟨rfl, rfl, rfl, rfl, rfl, rfl, rfl, rfl, rfl⟩

/-- C10 (index bounds): every state reached from a freshly constructed buffer of capacity
`N ≥ 1` by a sequence of `saveFrameBuffer` and `reset` calls has `0 ≤ buffer_num_ ≤ N` and
`0 ≤ last_ < N`. -/
theorem reachable_bounds [Zero F] [Zero R] (N : Int) (size : Nat) (hN : 1 ≤ N)
    (cs : List (Call F R)) :
    0 ≤ ((create N size).run cs).buffer_num_ ∧ ((create N size).run cs).buffer_num_ ≤ N ∧
    0 ≤ ((create N size).run cs).last_ ∧ ((create N size).run cs).last_ < N := by
  obtain ⟨_, _, _, h0, h1, b0, b1⟩ := ring_run N cs _ (ring_create N size hN)
  exact ⟨b0, b1, h0, h1⟩

/-- Witness of C10: capacity 3 after save 1, save 2, reset, save 3. -/
theorem reachable_bounds_witness :
    (1 : Int) ≤ 3 ∧
    0 ≤ ((create 3 16 : AdjFrame Nat Int).run
      [.save (exampleFrame 1 "a"), .save (exampleFrame 2 "b"), .reset,
        .save (exampleFrame 3 "c")]).buffer_num_ ∧
    ((create 3 16 : AdjFrame Nat Int).run
      [.save (exampleFrame 1 "a"), .save (exampleFrame 2 "b"), .reset,
        .save (exampleFrame 3 "c")]).last_ < 3 :=
  have h := reachable_bounds 3 16 (by decide)
    [.save (exampleFrame 1 "a"), .save (exampleFrame 2 "b"), .reset, .save (exampleFrame 3 "c")]
  ⟨by decide, h.1, h.2.2.2⟩

theorem vecGet_in_range {α : Type} (v : List α) (i : Int) (h0 : 0 ≤ i)
    (h1 : i.toNat < v.length) : ∃ a, vecGet v i = some a := by
  refine ⟨v[i.toNat], ?_⟩
  unfold vecGet
  rw [if_pos h0]
  exact List.getElem?_eq_getElem h1

/-- C11 (one slot per lookup, inside the storage): in every state `s` reached from a freshly
constructed buffer of capacity `N ≥ 1` and for every `k` with `0 ≤ k < N`, the index
`(-k + last_ + n_) % n_` that `getFrameBuffer k` and `getEgo2Global k` both compute equals
`(last_ - k + N) mod N` and lies in `[0, N)`; the block, rotation and translation stored at
that one index exist and are what the two functions return. -/
theorem lookup_same_slot [Zero F] [Zero R] (N : Int) (size : Nat) (hN : 1 ≤ N)
    (cs : List (Call F R)) (s : AdjFrame F R) (hs : s = (create N size).run cs) (k : Int)
    (k0 : 0 ≤ k) (k1 : k < N) :
    s.slotIndex k = (s.last_ - k + N) % N ∧ 0 ≤ s.slotIndex k ∧ s.slotIndex k < N ∧
    ∃ f rot trans,
      vecGet s.adj_buffer (s.slotIndex k) = some f ∧
      vecGet s.ego2global_rot_ (s.slotIndex k) = some rot ∧
      vecGet s.ego2global_trans_ (s.slotIndex k) = some trans ∧
      s.getFrameBuffer k = some f ∧ s.getEgo2Global k = some (rot, trans) := by
  have hr : s.Ring N := by rw [hs]; exact ring_run N cs _ (ring_create N size hN)
  have hb := slotIndex_bounds N s hr k k0 k1
  have he := slotIndex_eq N s hr k k0 k1
  obtain ⟨_, hn, ⟨_, z2, z3, z4⟩, h0, h1, _, _⟩ := hr
  rw [hn] at z2 z3 z4
  have hlt : (s.slotIndex k).toNat < N.toNat := by omega
  obtain ⟨f, hf⟩ := vecGet_in_range s.adj_buffer _ hb.1 (by rw [z4]; exact hlt)
  obtain ⟨rot, hrot⟩ := vecGet_in_range s.ego2global_rot_ _ hb.1 (by rw [z2]; exact hlt)
  obtain ⟨trans, htr⟩ := vecGet_in_range s.ego2global_trans_ _ hb.1 (by rw [z3]; exact hlt)
  refine ⟨?_, hb.1, hb.2, f, rot, trans, hf, hrot, htr, hf, ?_⟩
  · rw [he]
    split
    · next hle =>
      have e : s.last_ - k + N = (s.last_ - k) + 1 * N := by ring
      rw [e, Int.add_mul_emod_self]
      exact (Int.emod_eq_of_lt (by omega) (by omega)).symm
    · next hle => exact (Int.emod_eq_of_lt (by omega) (by omega)).symm
  · show (match vecGet s.ego2global_rot_ (s.slotIndex k),
        vecGet s.ego2global_trans_ (s.slotIndex k) with
      | some adj_ego2global_rot, some adj_ego2global_trans =>
        some (adj_ego2global_rot, adj_ego2global_trans)
      | _, _ => none) = _
    rw [hrot, htr]

/-- Witness of C11: capacity 3 after the saves of frames 1 and 2 (`last_ = 1`); the lookup at
offset 2 uses slot `(1 - 2 + 3) mod 3 = 2`. -/
theorem lookup_same_slot_witness :
    (1 : Int) ≤ 3 ∧ (0 : Int) ≤ 2 ∧ (2 : Int) < 3 ∧
    ((create 3 16 : AdjFrame Nat Int).run
      [.save (exampleFrame 1 "a"), .save (exampleFrame 2 "b")]).slotIndex 2 = 2 :=
  ⟨by decide, by decide, by decide,
    (lookup_same_slot 3 16 (by decide)
      [.save (exampleFrame 1 "a"), .save (exampleFrame 2 "b")] _ rfl 2 (by decide)
      (by decide)).1.trans (by decide)⟩

/-- C14 (no range check in the lookups): in every reachable state `s` of a buffer of capacity
`N ≥ 1`, an offset `k` with `N ≤ k ≤ last_ + N` is not rejected: the computed index lies in
`[0, N)` and is the index computed for offset `k - N`, so both lookups return what they return
for `k - N`.  And there is a reachable state of a buffer of capacity 3 (one save, `last_ = 0`)
and an offset `k > last_ + N` (`k = 4`) where the truncating remainder is negative, outside
the slots. -/
theorem lookup_no_range_check [Zero F] [Zero R] (N : Int) (size : Nat) (hN : 1 ≤ N)
    (cs : List (Call F R)) (s : AdjFrame F R) (hs : s = (create N size).run cs) (k : Int)
    (k0 : N ≤ k) (k1 : k ≤ s.last_ + N) :
    (0 ≤ s.slotIndex k ∧ s.slotIndex k < N ∧ s.slotIndex k = s.slotIndex (k - N) ∧
      s.getFrameBuffer k = s.getFrameBuffer (k - N) ∧
      s.getEgo2Global k = s.getEgo2Global (k - N)) ∧
    ∃ (cs3 : List (Call Nat Int)) (k3 : Int),
      ((create 3 16 : AdjFrame Nat Int).run cs3).last_ + 3 < k3 ∧
      ((create 3 16 : AdjFrame Nat Int).run cs3).slotIndex k3 < 0 ∧
      ((create 3 16 : AdjFrame Nat Int).run cs3).getFrameBuffer k3 = none ∧
      ((create 3 16 : AdjFrame Nat Int).run cs3).getEgo2Global k3 = none := by
  have hr : s.Ring N := by rw [hs]; exact ring_run N cs _ (ring_create N size hN)
  have he := slotIndex_eq N s hr (k - N) (by omega) (by have := hr.2.2.2.2.1; omega)
  obtain ⟨_, hn, _, h0, h1, _, _⟩ := hr
  have hk : s.slotIndex k = s.last_ - (k - N) := by
    unfold slotIndex
    rw [hn]
    have e : -k + s.last_ + N = s.last_ - (k - N) := by ring
    rw [e]
    exact Int.tmod_eq_of_lt (by omega) (by omega)
  have hkN : s.slotIndex (k - N) = s.last_ - (k - N) := by
    rw [he, if_pos (by omega)]
  have heq : s.slotIndex k = s.slotIndex (k - N) := hk.trans hkN.symm
  refine ⟨⟨by rw [hk]; omega, by rw [hk]; omega, heq, ?_, ?_⟩,
    [.save (exampleFrame 1 "a")], 4, by decide⟩
  · show vecGet s.adj_buffer (s.slotIndex k) = vecGet s.adj_buffer (s.slotIndex (k - N))
    rw [heq]
  · show (match vecGet s.ego2global_rot_ (s.slotIndex k),
        vecGet s.ego2global_trans_ (s.slotIndex k) with
      | some adj_ego2global_rot, some adj_ego2global_trans =>
        some (adj_ego2global_rot, adj_ego2global_trans)
      | _, _ => none) =
      (match vecGet s.ego2global_rot_ (s.slotIndex (k - N)),
        vecGet s.ego2global_trans_ (s.slotIndex (k - N)) with
      | some adj_ego2global_rot, some adj_ego2global_trans =>
        some (adj_ego2global_rot, adj_ego2global_trans)
      | _, _ => none)
    rw [heq]

/-- Witness of C14: capacity 3 after the saves of frames 1 and 2 (`last_ = 1`); offset 4 lies
in `[3, 4]` and is served from the slot of offset 1. -/
theorem lookup_no_range_check_witness :
    (1 : Int) ≤ 3 ∧ (3 : Int) ≤ 4 ∧
    (4 : Int) ≤ ((create 3 16 : AdjFrame Nat Int).run
      [.save (exampleFrame 1 "a"), .save (exampleFrame 2 "b")]).last_ + 3 ∧
    ((create 3 16 : AdjFrame Nat Int).run
      [.save (exampleFrame 1 "a"), .save (exampleFrame 2 "b")]).getFrameBuffer 4 =
    ((create 3 16 : AdjFrame Nat Int).run
      [.save (exampleFrame 1 "a"), .save (exampleFrame 2 "b")]).getFrameBuffer (4 - 3) :=
  ⟨by decide, by decide, by decide,
    (lookup_no_range_check 3 16 (by decide)
      [.save (exampleFrame 1 "a"), .save (exampleFrame 2 "b")] _ rfl 4 (by decide)
      (by decide)).1.2.2.2.1⟩

end AdjFrame

namespace camParams

variable {R : Type}

theorem pushCamera_some (config : YAML.Node R) (p : camParams R) (name : String)
    (h : EntryOk config name) :
    ∃ data_path cam_intrinsic sensor2ego_rot sensor2ego_trans,
      (camField config name "data_path").asString = some data_path ∧
      fromYamlMatrix3f (camField config name "cam_intrinsic") = some cam_intrinsic ∧
      fromYamlQuater (camField config name "sensor2ego_rotation") = some sensor2ego_rot ∧
      fromYamlTrans (camField config name "sensor2ego_translation") = some sensor2ego_trans ∧
      pushCamera config p name = some { p with
        imgs_file := p.imgs_file ++ ["." ++ data_path]
        cams_intrin := p.cams_intrin ++ [cam_intrinsic]
        cams2ego_rot := p.cams2ego_rot ++ [sensor2ego_rot]
        cams2ego_trans := p.cams2ego_trans ++ [sensor2ego_trans] } := by
  obtain ⟨h1, h2, h3, h4⟩ := h
  obtain ⟨a, ha⟩ := Option.isSome_iff_exists.mp h1
  obtain ⟨b, hb⟩ := Option.isSome_iff_exists.mp h2
  obtain ⟨c, hc⟩ := Option.isSome_iff_exists.mp h3
  obtain ⟨d, hd⟩ := Option.isSome_iff_exists.mp h4
  refine ⟨a, b, c, d, ha, hb, hc, hd, ?_⟩
  unfold pushCamera
  rw [ha, hb, hc, hd]

theorem pushCameras_spec (config : YAML.Node R) (cams_name : List String) (p : camParams R)
    (he : ∀ name ∈ cams_name, EntryOk config name) :
    ∃ q, pushCameras config cams_name p = some q ∧ q.N_img = p.N_img ∧
      q.imgs_file.map some = p.imgs_file.map some ++ cams_name.map (fun name =>
        ((camField config name "data_path").asString).map (fun data_path => "." ++ data_path)) ∧
      q.cams_intrin.map some = p.cams_intrin.map some ++ cams_name.map (fun name =>
        fromYamlMatrix3f (camField config name "cam_intrinsic")) ∧
      q.cams2ego_rot.map some = p.cams2ego_rot.map some ++ cams_name.map (fun name =>
        fromYamlQuater (camField config name "sensor2ego_rotation")) ∧
      q.cams2ego_trans.map some = p.cams2ego_trans.map some ++ cams_name.map (fun name =>
        fromYamlTrans (camField config name "sensor2ego_translation")) := by
  induction cams_name generalizing p with
  | nil => exact ⟨p, rfl, rfl, by simp, by simp, by simp, by simp⟩
  | cons name rest ih =>
    obtain ⟨a, b, c, d, ha, hb, hc, hd, hp⟩ :=
      pushCamera_some config p name (he name (List.mem_cons_self _ _))
    obtain ⟨q, hq, hn, e1, e2, e3, e4⟩ :=
      ih { p with
        imgs_file := p.imgs_file ++ ["." ++ a]
        cams_intrin := p.cams_intrin ++ [b]
        cams2ego_rot := p.cams2ego_rot ++ [c]
        cams2ego_trans := p.cams2ego_trans ++ [d] }
        (fun nm hnm => he nm (List.mem_cons_of_mem _ hnm))
    refine ⟨q, ?_, hn, ?_, ?_, ?_, ?_⟩
    · show (match pushCamera config p name with
        | some p1 => pushCameras config rest p1
        | none => none) = some q
      rw [hp]
      exact hq
    · rw [e1]; simp [ha]
    · rw [e2]; simp [hb]
    · rw [e3]; simp [hc]
    · rw [e4]; simp [hd]

/-- C15 (per-camera arrays follow `cams_name`): for every `n` and every list `cams_name`, when
the top-level entries of the config convert and every name of `cams_name` has a well-formed
entry, the YAML constructor returns a `camParams` whose `imgs_file`, `cams_intrin`,
`cams2ego_rot` and `cams2ego_trans` each have `cams_name.size()` entries, entry `i` being the
one read from the config entry of `cams_name[i]`, while `N_img` is `n` whatever the length of
`cams_name`. -/
theorem create_arrays (config : YAML.Node R) (n : Int) (cams_name : List String)
    (ht : TopLevelOk config) (he : ∀ name ∈ cams_name, EntryOk config name) :
    ∃ p, (create config n cams_name).value = some p ∧ p.N_img = n ∧
      p.imgs_file.length = cams_name.length ∧ p.cams_intrin.length = cams_name.length ∧
      p.cams2ego_rot.length = cams_name.length ∧ p.cams2ego_trans.length = cams_name.length ∧
      p.imgs_file.map some = cams_name.map (fun name =>
        ((camField config name "data_path").asString).map (fun data_path => "." ++ data_path)) ∧
      p.cams_intrin.map some = cams_name.map (fun name =>
        fromYamlMatrix3f (camField config name "cam_intrinsic")) ∧
      p.cams2ego_rot.map some = cams_name.map (fun name =>
        fromYamlQuater (camField config name "sensor2ego_rotation")) ∧
      p.cams2ego_trans.map some = cams_name.map (fun name =>
        fromYamlTrans (camField config name "sensor2ego_translation")) := by
  obtain ⟨t1, t2, t3, t4, t5, t6⟩ := ht
  obtain ⟨a1, h1⟩ := Option.isSome_iff_exists.mp t1
  obtain ⟨a2, h2⟩ := Option.isSome_iff_exists.mp t2
  obtain ⟨a3, h3⟩ := Option.isSome_iff_exists.mp t3
  obtain ⟨a4, h4⟩ := Option.isSome_iff_exists.mp t4
  obtain ⟨a5, h5⟩ := Option.isSome_iff_exists.mp t5
  obtain ⟨a6, h6⟩ := Option.isSome_iff_exists.mp t6
  obtain ⟨q, hq, hn, e1, e2, e3, e4⟩ := pushCameras_spec config cams_name
    { N_img := n, ego2global_rot := a1, ego2global_trans := a2, lidar2ego_rot := a3,
      lidar2ego_trans := a4, cams_intrin := [], cams2ego_rot := [], cams2ego_trans := [],
      imgs_file := [], timestamp := a5, scene_token := a6 } he
  simp only [List.map_nil, List.nil_append] at e1 e2 e3 e4
  refine ⟨q, ?_, hn, ?_, ?_, ?_, ?_, e1, e2, e3, e4⟩
  · unfold create
    simp only
    rw [h1, h2, h3, h4, h5, h6]
    exact hq
  · have := congrArg List.length e1
    simpa using this
  · have := congrArg List.length e2
    simpa using this
  · have := congrArg List.length e3
    simpa using this
  · have := congrArg List.length e4
    simpa using this

/-- Witness of C15: the example config, the two cameras asked for in the order back, front,
and `n = 3`; the arrays have two entries, `N_img` is 3. -/
theorem create_arrays_witness :
    TopLevelOk exampleConfig ∧
    (∀ name ∈ ["CAM_BACK", "CAM_FRONT"], EntryOk exampleConfig name) ∧
    ∃ p, (create exampleConfig 3 ["CAM_BACK", "CAM_FRONT"]).value = some p ∧ p.N_img = 3 ∧
      p.imgs_file.length = 2 ∧
      p.imgs_file.map some = [some "./samples/back.jpg", some "./samples/front.jpg"] := by
  have ht : TopLevelOk exampleConfig := by unfold TopLevelOk; decide
  have he : ∀ name ∈ ["CAM_BACK", "CAM_FRONT"], EntryOk exampleConfig name := by
    intro name h
    simp only [List.mem_cons, List.mem_singleton, List.not_mem_nil, or_false] at h
    rcases h with rfl | rfl <;> (unfold EntryOk; decide)
  obtain ⟨p, hv, hn, hl, _, _, _, hf, _⟩ :=
    create_arrays exampleConfig 3 ["CAM_BACK", "CAM_FRONT"] ht he
  exact ⟨ht, he, p, hv, hn, hl, hf.trans (by decide)⟩

/-- C12, the code at a failing input: the example config, `n = 2` expected cameras and the
single camera name `CAM_FRONT`.  The constructor logs the error and still returns a `camParams`,
with `N_img = 2` and per-camera arrays of length 1. -/
theorem create_count_mismatch :
    ((2 : Int) % 2 ^ 64).toNat ≠ ["CAM_FRONT"].length ∧
    (create exampleConfig 2 ["CAM_FRONT"]).errors =
      [⟨"camParams", "Error! Need %d camera param, but given %zu camera names!", 2, 1⟩] ∧
    ((create exampleConfig 2 ["CAM_FRONT"]).value.map (fun p =>
      (p.N_img, p.imgs_file, p.cams_intrin.length, p.cams2ego_rot.length,
        p.cams2ego_trans.length))) = some (2, ["./samples/front.jpg"], 1, 1, 1) := by
  decide

end camParams

/-- C13, as amended (`fromYamlQuater` copies, it does not renormalise): for every 4-element
input `(w, x, y, z)` the returned quaternion has exactly the coefficients `w, x, y, z`, so its
squared magnitude is `w² + x² + y² + z²`, which is 1 only when the input has magnitude 1. -/
theorem fromYamlQuater_copies {R : Type} [CommRing R] (w x y z : R) :
    fromYamlQuater (YAML.Node.seq [.real w, .real x, .real y, .real z]) = some ⟨w, x, y, z⟩ ∧
    (fromYamlQuater (YAML.Node.seq [.real w, .real x, .real y, .real z])).map
      Eigen.Quaternion.squaredNorm = some (w ^ 2 + x ^ 2 + y ^ 2 + z ^ 2) := by
  have h : fromYamlQuater (YAML.Node.seq [.real w, .real x, .real y, .real z])
      = some ⟨w, x, y, z⟩ := rfl
  refine ⟨h, ?_⟩
  rw [h]
  show some (w * w + x * x + y * y + z * z) = _
  congr 1
  ring

/-- Counterexample to C13 as stated: the input `(2, 0, 0, 0)` is not all zero, and the
quaternion returned for it has squared magnitude 4, not 1. -/
theorem fromYamlQuater_not_unit_counterexample :
    (fromYamlQuater (YAML.Node.seq [.real (2 : ℚ), .real 0, .real 0, .real 0])).map
      Eigen.Quaternion.squaredNorm = some 4 ∧
    (fromYamlQuater (YAML.Node.seq [.real (2 : ℚ), .real 0, .real 0, .real 0])).map
      Eigen.Quaternion.squaredNorm ≠ some 1 := by
  have h : fromYamlQuater (YAML.Node.seq [.real (2 : ℚ), .real 0, .real 0, .real 0])
      = some ⟨2, 0, 0, 0⟩ := rfl
  rw [h]
  simp only [Option.map_some', Eigen.Quaternion.squaredNorm]
  norm_num
